import Mathlib

/-!
Verification development for the paymore-lite voice relay client and the
relay session / fan-out service it is designed against.

JavaScript strings are embedded as lists of characters (`Str`); machine
timestamps are natural numbers of milliseconds.
-/

/-- JavaScript strings are modelled as lists of characters. -/
abbrev Str := List Char

/-- Convert a Lean string literal to the character-list model. -/
def str (s : String) : Str := s.data

/-- Type `TranscriptEvent` from the shared types module (the constant
`type: "transcript"` tag is implicit in the Lean type). -/
structure TranscriptEvent where
  interim : Bool
  text : Str
  timestampMs : Nat
deriving DecidableEq

/-- Type `SessionInfo` from the shared types module. -/
structure SessionInfo where
  sessionId : Str
  token : Str
  relayUrl : Str
  expiresAt : Nat
deriving DecidableEq

/-- Characters left unescaped by JavaScript `encodeURIComponent`:
letters, digits, and `- _ . ! ~ * ' ( )`. -/
def isUnreservedChar (c : Char) : Bool :=
  (('A' ≤ c && c ≤ 'Z') || ('a' ≤ c && c ≤ 'z') || ('0' ≤ c && c ≤ '9')) ||
  (c = '-' || c = '_' || c = '.' || c = '!' ||
   c = '~' || c = '*' || c = Char.ofNat 39 || c = '(' || c = ')')

/-- Uppercase hexadecimal digit for a value below 16. -/
def hexDigitChar (n : Nat) : Char :=
  if n < 10 then Char.ofNat (48 + n) else Char.ofNat (55 + n)

/-- UTF-8 byte sequence of a code point, as used by `encodeURIComponent`. -/
def utf8Bytes (c : Char) : List Nat :=
  let n := c.toNat
  if n < 128 then [n]
  else if n < 2048 then [192 + n / 64, 128 + n % 64]
  else if n < 65536 then [224 + n / 4096, 128 + (n / 64) % 64, 128 + n % 64]
  else [240 + n / 262144, 128 + (n / 4096) % 64, 128 + (n / 64) % 64, 128 + n % 64]

/-- Percent-encoding of one byte: `%XY` with uppercase hex. -/
def percentEncodeByte (b : Nat) : List Char :=
  ['%', hexDigitChar (b / 16), hexDigitChar (b % 16)]

/-- Encoding of a single character under `encodeURIComponent`. -/
def encodeChar (c : Char) : List Char :=
  if isUnreservedChar c then [c] else (utf8Bytes c).flatMap percentEncodeByte

/-- JavaScript `encodeURIComponent` over the character-list string model. -/
def encodeURIComponent (s : Str) : Str :=
  (s.map encodeChar).flatten

/-- Model of `.replace(/\/$/, "")`: removes one trailing slash if present. -/
def stripTrailingSlashOnce (s : Str) : Str :=
  match s.reverse with
  | '/' :: rest => rest.reverse
  | _ => s

/-- Function `buildRelayWsUrl` from the shared utilities module:
the relay base with one trailing slash stripped, then `/s/<sessionId>?t=<token>`
with the token URI-encoded. -/
def buildRelayWsUrl (info : SessionInfo) : Str :=
  stripTrailingSlashOnce info.relayUrl ++ str "/s/" ++ info.sessionId ++
    str "?t=" ++ encodeURIComponent info.token

theorem stripTrailingSlashOnce_append_slash (r : Str) :
    stripTrailingSlashOnce (r ++ ['/']) = r := by
  simp [stripTrailingSlashOnce]

theorem stripTrailingSlashOnce_of_not_slash (s : Str)
    (h : s.getLast? ≠ some '/') : stripTrailingSlashOnce s = s := by
  unfold stripTrailingSlashOnce
  cases hrev : s.reverse with
  | nil => rfl
  | cons c t =>
    have hc : s.getLast? = some c := by
      rw [← List.head?_reverse, hrev]
      rfl
    cases hcq : c == '/' with
    | true =>
      exact absurd (hc.trans (by rw [eq_of_beq hcq])) h
    | false =>
      have : c ≠ '/' := by
        intro hh
        simp [hh] at hcq
      cases c
      simp_all [List.reverse_eq_iff]

/-- Fixed session TTL used by `createSession` in the popup:
`30 * 60 * 1000` milliseconds. -/
def sessionTTLMs : Nat := 30 * 60 * 1000

/-- The pure core of `createSession` in `PhoneMicPopup`: the `SessionInfo`
built from the HTTP response. `relayUrl` is `data.relayUrl || relayBase`
(a missing or empty response field falls back to the configured base), and
`expiresAt` is `Date.now() + 30 * 60 * 1000`. -/
def mkSessionInfo (now : Nat) (dataSessionId dataToken : Str)
    (dataRelayUrl : Option Str) (relayBase : Str) : SessionInfo :=
  { sessionId := dataSessionId
    token := dataToken
    relayUrl :=
      match dataRelayUrl with
      | some r => if r = [] then relayBase else r
      | none => relayBase
    expiresAt := now + 30 * 60 * 1000 }

/-- The pairing URL built by `createSession` and handed to the QR
collaborator: `https://voice.paymore.app?s=<sid>&t=<token>&lang=<lang>&model=<model>`
with every component URI-encoded. -/
def pairingUrl (info : SessionInfo) (language model : Str) : Str :=
  str "https://voice.paymore.app?s=" ++ encodeURIComponent info.sessionId ++
    str "&t=" ++ encodeURIComponent info.token ++
    str "&lang=" ++ encodeURIComponent language ++
    str "&model=" ++ encodeURIComponent model

/-- A parsed relay WebSocket message as seen by `connectRelay`'s `onmessage`
handler (fields that may be absent in the JSON are `Option`). -/
structure RelayMsg where
  type : Str
  interim : Option Bool
  text : Option Str
  timestampMs : Option Nat
deriving DecidableEq

/-- The message `connectRelay` forwards to the active tab's content script. -/
structure TabMessage where
  action : Str
  interim : Bool
  text : Str
  timestampMs : Nat
deriving DecidableEq

/-- The pure core of `connectRelay`'s `onmessage` handler in `PhoneMicPopup`:
for a `transcript` message it forwards
`{action: "pm-voice-transcript", interim: !!msg.interim, text: String(msg.text || ""),
timestampMs: Date.now()}` to the content script (`now` is `Date.now()` at
receipt); other message types are ignored. -/
def connectRelayForward (msg : RelayMsg) (now : Nat) : Option TabMessage :=
  if msg.type = str "transcript" then
    some { action := str "pm-voice-transcript"
           interim := msg.interim.getD false
           text := msg.text.getD []
           timestampMs := now }
  else
    none

/-- The state of a focused input or textarea element: its value and the
selection range endpoints (absent when the browser reports none). After an
edit the two endpoints are the collapsed caret. -/
structure EditState where
  value : Str
  selStart : Option Nat
  selEnd : Option Nat
deriving DecidableEq

/-- Function `insertAtCaret` from the content-script plan, restricted to the
input/textarea branch: with no focused element it is a no-op; otherwise it
splices `text` between `value.substring(0, selectionStart)` and
`value.substring(selectionEnd)` (each endpoint defaulting to the value's
length when absent) and collapses the selection to just after the insertion. -/
def insertAtCaret (el : Option EditState) (text : Str) : Option EditState :=
  match el with
  | none => none
  | some input =>
    let start := input.selStart.getD input.value.length
    let stop := input.selEnd.getD input.value.length
    let before := input.value.take start
    let after := input.value.drop stop
    some { value := before ++ text ++ after
           selStart := some (start + text.length)
           selEnd := some (start + text.length) }

/-- Function `handleTranscriptMessage` from the content-script plan: interim text is
inserted verbatim, final text with one trailing space
(`msg.interim ? msg.text : msg.text + " "`; a missing `interim` is falsy). -/
def handleTranscriptMessage (interim : Option Bool) (text : Str)
    (el : Option EditState) : Option EditState :=
  insertAtCaret el (if interim.getD false then text else text ++ [' '])

/-- Modelled from the spec: the semantic close codes of the relay protocol
(§6); no relay server implementation exists under `src/`, only its design
documents. -/
inductive CloseCode where
  | invalidCredential
  | sessionExpired
  | sessionMismatch
  | producerSlotOccupied
  | oversizedMessage
  | malformedMessage
  | rateLimited
  | backpressureOverflow
  | normalClosure
deriving DecidableEq

/-- Modelled from the spec: connection roles in a relay room (§4.4). -/
inductive Role where
  | producer
  | consumer
deriving DecidableEq

/-- Modelled from the spec: a relay room holds at most one producer
connection and a membership set of consumer connections (§3, Room);
connections are identified by numbers. -/
structure Room where
  producer : Option Nat
  consumers : List Nat
deriving DecidableEq

/-- Modelled from the spec: the outcome of a join attempt on a room —
either the updated room or a rejection with a close code (§4.4). -/
inductive JoinResult where
  | joined (r : Room)
  | rejected (code : CloseCode)
deriving DecidableEq

/-- Modelled from the spec: registration of an authenticated connection into
a room (§4.4): a producer-role join takes the producer slot only when it is
empty and is otherwise rejected with `producer-slot-occupied`; a consumer
join adds the connection to the membership set. -/
def joinRoom (room : Room) (conn : Nat) (role : Role) : JoinResult :=
  match role with
  | .producer =>
    match room.producer with
    | none => .joined { room with producer := some conn }
    | some _ => .rejected .producerSlotOccupied
  | .consumer => .joined { room with consumers := conn :: room.consumers }

/-- The room state actually in effect after a join attempt: a rejected
attempt leaves the room as it was. -/
def roomAfterJoin (room : Room) (conn : Nat) (role : Role) : Room :=
  match joinRoom room conn role with
  | .joined r => r
  | .rejected _ => room

/-- Modelled from the spec: broadcasting one producer event to every
currently connected consumer of a room (§4.4). -/
def broadcastToConsumers (room : Room) (ev : TranscriptEvent) :
    List (Nat × TranscriptEvent) :=
  room.consumers.map (fun c => (c, ev))

/-- Modelled from the spec: the fan-out state of one room — the list of
events the producer has sent so far and, for each joined consumer, the list
of events delivered to it (§4.4, §5). -/
structure RelayState where
  sent : List TranscriptEvent
  consumers : List (Nat × List TranscriptEvent)
deriving DecidableEq

/-- Modelled from the spec: the observable operations on one room's
fan-out path — a consumer joining, a consumer leaving, and the producer
sending a transcript event (§4.4). -/
inductive RelayOp where
  | join (c : Nat)
  | leave (c : Nat)
  | send (ev : TranscriptEvent)
deriving DecidableEq

/-- Modelled from the spec: one step of the fan-out semantics — a send is
appended to the producer's sent list and delivered, in that same step, to
the tail of every currently joined consumer's delivery list (§4.4 broadcast,
§5 ordering). -/
def stepRelay (st : RelayState) (op : RelayOp) : RelayState :=
  match op with
  | .join c => { st with consumers := st.consumers ++ [(c, [])] }
  | .leave c => { st with consumers := st.consumers.filter (fun p => p.1 != c) }
  | .send ev =>
    { sent := st.sent ++ [ev]
      consumers := st.consumers.map (fun p => (p.1, p.2 ++ [ev])) }

/-- The empty room fan-out state. -/
def initRelay : RelayState := { sent := [], consumers := [] }

/-- Run a sequence of fan-out operations from the empty state. -/
def runRelay (ops : List RelayOp) : RelayState :=
  ops.foldl stepRelay initRelay

/-- Modelled from the spec: a connection's bounded outbound queue with its
backpressure bookkeeping (§5): the queued events, the queue capacity,
whether the connection is still open, and the close code recorded when the
relay closed it. -/
structure ConnOut where
  queue : List TranscriptEvent
  cap : Nat
  isOpen : Bool
  closeCode : Option CloseCode
deriving DecidableEq

/-- Modelled from the spec: removal of the oldest interim event from a
queue; `none` when the queue holds no interim event (§5). -/
def dropOldestInterim : List TranscriptEvent → Option (List TranscriptEvent)
  | [] => none
  | e :: rest =>
    if e.interim then some rest
    else (dropOldestInterim rest).map (fun r => e :: r)

/-- Modelled from the spec: enqueueing one event onto a connection's bounded
outbound queue (§5): if there is room the event is appended; on a full queue
the oldest interim event is dropped to make room; if no interim can be
dropped, a new interim event is itself dropped, while a final event closes
the connection with `backpressure-overflow` instead of being lost silently. -/
def enqueueEvent (c : ConnOut) (ev : TranscriptEvent) : ConnOut :=
  if c.isOpen = false then c
  else if c.queue.length < c.cap then { c with queue := c.queue ++ [ev] }
  else
    match dropOldestInterim c.queue with
    | some q => { c with queue := q ++ [ev] }
    | none =>
      if ev.interim then c
      else { c with isOpen := false, closeCode := some .backpressureOverflow }

/-- The final (non-interim) events of a queue, in order. -/
def finalsOf (q : List TranscriptEvent) : List TranscriptEvent :=
  q.filter (fun e => !e.interim)

/-- Modelled from the spec: a credential as the token service sees it — a
malformed blob, or a well-formed structure carrying `sid`, `exp` and a
signature (§4.1). -/
inductive Credential where
  | malformed (raw : Str)
  | wf (sid : Str) (tokenExp : Nat) (sig : Nat)
deriving DecidableEq

/-- Modelled from the spec: the keyed signature over the credential's
payload (`sid`, `exp`) under the process-wide secret (§4.1, HS256 in the
design documents), abstracted to an executable keyed hash. -/
def signToken (secret : Nat) (sid : Str) (tokenExp : Nat) : Nat :=
  sid.foldl (fun a c => a * 131 + c.toNat + 7) (secret + tokenExp * 1009)

/-- Modelled from the spec: result of credential verification (§4.1). -/
inductive VerifyResult where
  | Invalid
  | Valid (sid : Str) (tokenExp : Nat)
deriving DecidableEq

/-- Modelled from the spec: `verify(credential)` (§4.1): `Invalid` on a
malformed structure, a signature mismatch, or an expired `exp` — where a
current time exactly equal to `exp` already counts as expired (§8). -/
def verify (secret : Nat) (cred : Credential) (now : Nat) : VerifyResult :=
  match cred with
  | .malformed _ => .Invalid
  | .wf sid tokenExp sig =>
    if sig ≠ signToken secret sid tokenExp then .Invalid
    else if tokenExp ≤ now then .Invalid
    else .Valid sid tokenExp

/-- Split a character list on every occurrence of a separator (the standard
query-string split on `&`). -/
def splitOnChar (sep : Char) : Str → List Str
  | [] => [[]]
  | c :: rest =>
    if c = sep then [] :: splitOnChar sep rest
    else
      match splitOnChar sep rest with
      | [] => [[c]]
      | h :: t => (c :: h) :: t

/-- Split a `key=value` piece at its first `=`; a piece with no `=` becomes
a key with an empty value. -/
def splitKV : Str → Str × Str
  | [] => ([], [])
  | c :: rest =>
    if c = '=' then ([], rest)
    else
      let kv := splitKV rest
      (c :: kv.1, kv.2)

/-- The characters after the first occurrence of a separator, if any (used
to take the query part of a URL after `?`). -/
def afterChar (sep : Char) : Str → Option Str
  | [] => none
  | c :: rest => if c = sep then some rest else afterChar sep rest

/-- Look a key up among `key=value` pieces, first match wins. -/
def lookupKV (key : Str) : List Str → Option Str
  | [] => none
  | p :: rest =>
    let kv := splitKV p
    if kv.1 = key then some kv.2 else lookupKV key rest

/-- Modelled from the spec: the phone PWA's parsing of the pairing URL's
query parameters (`?s=<sessionId>&t=<token>` in the design documents) —
the value of one query parameter of a URL. -/
def getParam (url : Str) (key : Str) : Option Str :=
  match afterChar '?' url with
  | none => none
  | some q => lookupKV key (splitOnChar '&' q)

theorem finalsOf_append (q r : List TranscriptEvent) :
    finalsOf (q ++ r) = finalsOf q ++ finalsOf r := by
  simp [finalsOf]

theorem dropOldestInterim_finals :
    ∀ q q', dropOldestInterim q = some q' → finalsOf q' = finalsOf q := by
  intro q
  induction q with
  | nil => intro q' h; simp [dropOldestInterim] at h
  | cons e rest ih =>
    intro q' h
    by_cases hi : e.interim
    · simp [dropOldestInterim, hi] at h
      subst h
      simp [finalsOf, hi]
    · simp [dropOldestInterim, hi] at h
      obtain ⟨r, hr, hq⟩ := h
      subst hq
      have hfr := ih r hr
      simp [finalsOf] at hfr ⊢
      simp [hi, hfr]

/-- Claim C1: a second connection attempting to join an occupied room as
producer is rejected with `producer-slot-occupied`, the room is neither
changed nor gets a queued or replacing producer, broadcasts to the room's
consumers are unaffected, and the original producer keeps the slot. -/
theorem producer_slot_exclusive (room : Room) (conn p : Nat)
    (h : room.producer = some p) :
    joinRoom room conn .producer = .rejected .producerSlotOccupied ∧
    roomAfterJoin room conn .producer = room ∧
    (∀ ev, broadcastToConsumers (roomAfterJoin room conn .producer) ev =
      broadcastToConsumers room ev) ∧
    (roomAfterJoin room conn .producer).producer = some p := by
  refine ⟨?_, ?_, ?_, ?_⟩ <;> simp [joinRoom, roomAfterJoin, h]

/-- Concrete instance of `producer_slot_exclusive` for a room whose producer
slot is held by connection 1. -/
theorem producer_slot_exclusive_witness :
    joinRoom ⟨some 1, [2, 3]⟩ 4 .producer = .rejected .producerSlotOccupied ∧
    roomAfterJoin ⟨some 1, [2, 3]⟩ 4 .producer = ⟨some 1, [2, 3]⟩ ∧
    broadcastToConsumers (roomAfterJoin ⟨some 1, [2, 3]⟩ 4 .producer)
        ⟨true, str "hi", 5⟩ =
      broadcastToConsumers ⟨some 1, [2, 3]⟩ ⟨true, str "hi", 5⟩ ∧
    (roomAfterJoin ⟨some 1, [2, 3]⟩ 4 .producer).producer = some 1 := by
  obtain ⟨h1, h2, h3, h4⟩ := producer_slot_exclusive ⟨some 1, [2, 3]⟩ 4 1 rfl
  exact ⟨h1, h2, h3 _, h4⟩

/-- Claim C4: `verify` returns `Invalid` on a malformed credential, on a
signature mismatch, and whenever the current time is at or past the
credential's expiry (the boundary instant counts as expired). -/
theorem verify_invalid_conditions (secret now : Nat) :
    (∀ raw, verify secret (.malformed raw) now = .Invalid) ∧
    (∀ sid tokenExp sig, sig ≠ signToken secret sid tokenExp →
      verify secret (.wf sid tokenExp sig) now = .Invalid) ∧
    (∀ sid tokenExp sig, tokenExp ≤ now →
      verify secret (.wf sid tokenExp sig) now = .Invalid) := by
  refine ⟨fun raw => rfl, fun sid e g hne => by simp [verify, hne],
    fun sid e g hle => ?_⟩
  by_cases hsig : g = signToken secret sid e
  · simp [verify, hsig, hle]
  · simp [verify, hsig]

/-- Concrete instance of `verify_invalid_conditions`: a correctly signed
credential checked exactly at its expiry instant is `Invalid`. -/
theorem verify_invalid_conditions_witness :
    verify 3 (.wf (str "abc") 50 (signToken 3 (str "abc") 50)) 50 = .Invalid :=
  (verify_invalid_conditions 3 50).2.2 (str "abc") 50
    (signToken 3 (str "abc") 50) (by decide)

/-- Claim C5: a created session's `expiresAt` equals its creation time plus
the fixed TTL, and that TTL lies between 30 and 60 minutes. -/
theorem session_expiry_invariant (now : Nat) (sid tok : Str)
    (dataRelayUrl : Option Str) (relayBase : Str) :
    (mkSessionInfo now sid tok dataRelayUrl relayBase).expiresAt =
      now + sessionTTLMs ∧
    30 * 60 * 1000 ≤ sessionTTLMs ∧ sessionTTLMs ≤ 60 * 60 * 1000 :=
  ⟨rfl, by decide, by decide⟩

/-- Claim C3: while the destination connection remains open, every final
transcript in its outbound queue is preserved and a new final is appended
(only interims are ever dropped); when enqueueing closes the connection,
the event was a final that could not be queued, the queue kept every
already-queued event, and the recorded close code is
`backpressure-overflow` — the final is never silently lost. -/
theorem final_transcripts_never_dropped (c : ConnOut) (ev : TranscriptEvent)
    (hopen : c.isOpen = true) :
    ((enqueueEvent c ev).isOpen = true →
      finalsOf (enqueueEvent c ev).queue = finalsOf c.queue ++ finalsOf [ev]) ∧
    ((enqueueEvent c ev).isOpen = false →
      ev.interim = false ∧ (enqueueEvent c ev).queue = c.queue ∧
      (enqueueEvent c ev).closeCode = some .backpressureOverflow) := by
  unfold enqueueEvent
  rw [hopen]
  by_cases hroom : c.queue.length < c.cap
  · simp [hroom, finalsOf_append, hopen]
  · simp only [hroom]
    cases hdrop : dropOldestInterim c.queue with
    | some q =>
      simp [hopen, finalsOf_append, dropOldestInterim_finals _ _ hdrop]
    | none =>
      by_cases hi : ev.interim
      · simp [hi, hopen, finalsOf]
      · simp [hi, hopen]

/-- Concrete instance of `final_transcripts_never_dropped`: a full queue of
finals with no droppable interim closes the connection with
`backpressure-overflow` when another final arrives, keeping the queue. -/
theorem final_transcripts_never_dropped_witness :
    TranscriptEvent.interim ⟨false, str "f2", 2⟩ = false ∧
    (enqueueEvent ⟨[⟨false, str "f1", 1⟩], 1, true, none⟩
        ⟨false, str "f2", 2⟩).queue = [⟨false, str "f1", 1⟩] ∧
    (enqueueEvent ⟨[⟨false, str "f1", 1⟩], 1, true, none⟩
        ⟨false, str "f2", 2⟩).closeCode = some .backpressureOverflow :=
  (final_transcripts_never_dropped ⟨[⟨false, str "f1", 1⟩], 1, true, none⟩
    ⟨false, str "f2", 2⟩ rfl).2 (by decide)

/-- Claim C6 counterexample: `connectRelay` forwards a transcript whose
producer-supplied `timestampMs` is 12345 with `timestampMs` equal to the
receipt time 99999 — the explicitly supplied timestamp is replaced. -/
theorem connectRelay_timestamp_counterexample :
    connectRelayForward ⟨str "transcript", some true, some (str "hi"), some 12345⟩
        99999 =
      some ⟨str "pm-voice-transcript", true, str "hi", 99999⟩ ∧
    (99999 : Nat) ≠ 12345 := by
  exact ⟨by decide, by decide⟩

/-- Claim C6 (amended): every transcript payload forwarded to the content
script carries the receipt time as `timestampMs`, whether or not the
producer supplied one, while a producer-supplied `text` and `interim` are
forwarded unchanged. -/
theorem connectRelay_forward_stamps_receipt (msg : RelayMsg) (now : Nat)
    (t : Str) (i : Bool) (htype : msg.type = str "transcript")
    (htext : msg.text = some t) (hint : msg.interim = some i) :
    connectRelayForward msg now = some ⟨str "pm-voice-transcript", i, t, now⟩ := by
  simp [connectRelayForward, htype, htext, hint]

/-- Concrete instance of `connectRelay_forward_stamps_receipt`. -/
theorem connectRelay_forward_stamps_receipt_witness :
    connectRelayForward ⟨str "transcript", some false, some (str "ok"), none⟩ 7 =
      some ⟨str "pm-voice-transcript", false, str "ok", 7⟩ :=
  connectRelay_forward_stamps_receipt
    ⟨str "transcript", some false, some (str "ok"), none⟩ 7 (str "ok") false
    rfl rfl rfl

/-- Claim C10: with a focused input or textarea whose selection is
`[start, stop]`, a transcript message replaces the selection with the text
(verbatim when interim, with exactly one appended space when final), leaves
the prefix before `start` and the suffix after `stop` unchanged, places the
collapsed caret immediately after the insertion, and changes the length
accordingly; with no focused element nothing is modified. -/
theorem handleTranscript_insertion (interim : Bool) (text : Str)
    (st : EditState) (start stop : Nat)
    (hs : st.selStart = some start) (he : st.selEnd = some stop)
    (hse : start ≤ stop) (hlen : stop ≤ st.value.length) :
    (handleTranscriptMessage (some interim) text (some st) =
      some { value := st.value.take start ++
               (if interim then text else text ++ [' ']) ++ st.value.drop stop
             selStart :=
               some (start + (if interim then text else text ++ [' ']).length)
             selEnd :=
               some (start + (if interim then text else text ++ [' ']).length) }) ∧
    (st.value.take start ++ (if interim then text else text ++ [' ']) ++
        st.value.drop stop).length =
      st.value.length - (stop - start) +
        (if interim then text else text ++ [' ']).length ∧
    handleTranscriptMessage (some interim) text none = none := by
  refine ⟨?_, ?_, rfl⟩
  · cases interim <;> simp [handleTranscriptMessage, insertAtCaret, hs, he]
  · have h1 : (st.value.take start).length = start := by
      simp [List.length_take]
      omega
    have h2 : (st.value.drop stop).length = st.value.length - stop := by
      simp [List.length_drop]
    simp [List.length_append, h1, h2]
    omega

/-- Concrete instance of `handleTranscript_insertion`: inserting the final
transcript "XY" at caret 5 of "hello world". -/
theorem handleTranscript_insertion_witness :
    (handleTranscriptMessage (some false) (str "XY")
        (some ⟨str "hello world", some 5, some 5⟩) =
      some { value := (str "hello world").take 5 ++
               (if false then str "XY" else str "XY" ++ [' ']) ++
               (str "hello world").drop 5
             selStart :=
               some (5 + (if false then str "XY" else str "XY" ++ [' ']).length)
             selEnd :=
               some (5 + (if false then str "XY" else str "XY" ++ [' ']).length) }) ∧
    ((str "hello world").take 5 ++
        (if false then str "XY" else str "XY" ++ [' ']) ++
        (str "hello world").drop 5).length =
      (str "hello world").length - (5 - 5) +
        (if false then str "XY" else str "XY" ++ [' ']).length ∧
    handleTranscriptMessage (some false) (str "XY") none = none :=
  handleTranscript_insertion false (str "XY")
    ⟨str "hello world", some 5, some 5⟩ 5 5 rfl rfl (by decide) (by decide)

theorem exists_append_slash_of_getLast (s : Str) (h : s.getLast? = some '/') :
    ∃ r, s = r ++ ['/'] := by
  cases hv : s.reverse with
  | nil =>
    rw [List.reverse_eq_nil_iff] at hv
    rw [hv] at h
    cases h
  | cons c t =>
    have hc : c = '/' := by
      have h2 := h
      rw [← List.head?_reverse, hv] at h2
      simpa using h2
    refine ⟨t.reverse, ?_⟩
    have : s.reverse.reverse = (c :: t).reverse := by rw [hv]
    rw [List.reverse_reverse] at this
    rw [this, hc]
    simp

/-- Claim C8: `buildRelayWsUrl` is the relay base with at most one trailing
slash removed, followed by `/s/`, the session id, `?t=` and the URL-encoded
credential: if the base ends with a slash exactly that one slash is gone,
otherwise the base is kept verbatim. -/
theorem buildRelayWsUrl_shape (info : SessionInfo) :
    (∃ r, info.relayUrl = r ++ ['/'] ∧
      buildRelayWsUrl info = r ++ str "/s/" ++ info.sessionId ++ str "?t=" ++
        encodeURIComponent info.token) ∨
    (info.relayUrl.getLast? ≠ some '/' ∧
      buildRelayWsUrl info = info.relayUrl ++ str "/s/" ++ info.sessionId ++
        str "?t=" ++ encodeURIComponent info.token) := by
  by_cases h : info.relayUrl.getLast? = some '/'
  · left
    obtain ⟨r, hr⟩ := exists_append_slash_of_getLast _ h
    refine ⟨r, hr, ?_⟩
    rw [buildRelayWsUrl, hr, stripTrailingSlashOnce_append_slash]
  · right
    refine ⟨h, ?_⟩
    rw [buildRelayWsUrl, stripTrailingSlashOnce_of_not_slash _ h]

/-- Claim C9: when the relay base does not end in a slash, appending one
trailing slash leaves `buildRelayWsUrl` unchanged, while appending two
changes the output (only one of the two is stripped). -/
theorem buildRelayWsUrl_slash_invariance (info : SessionInfo)
    (h : info.relayUrl.getLast? ≠ some '/') :
    buildRelayWsUrl
        { info with relayUrl := info.relayUrl ++ ['/'] } =
      buildRelayWsUrl info ∧
    buildRelayWsUrl
        { info with relayUrl := info.relayUrl ++ ['/', '/'] } ≠
      buildRelayWsUrl info := by
  constructor
  · simp only [buildRelayWsUrl, stripTrailingSlashOnce_append_slash,
      stripTrailingSlashOnce_of_not_slash _ h]
  · intro heq
    have hsplit : info.relayUrl ++ ['/', '/'] = (info.relayUrl ++ ['/']) ++ ['/'] := by
      simp
    rw [buildRelayWsUrl, buildRelayWsUrl, hsplit,
      stripTrailingSlashOnce_append_slash,
      stripTrailingSlashOnce_of_not_slash _ h] at heq
    have hlen := congrArg List.length heq
    simp [List.length_append] at hlen

/-- Concrete instance of `buildRelayWsUrl_slash_invariance` for the base
`wss://relay.example`. -/
theorem buildRelayWsUrl_slash_invariance_witness :
    buildRelayWsUrl
        ⟨str "abc", str "tok", str "wss://relay.example" ++ ['/'], 0⟩ =
      buildRelayWsUrl ⟨str "abc", str "tok", str "wss://relay.example", 0⟩ ∧
    buildRelayWsUrl
        ⟨str "abc", str "tok", str "wss://relay.example" ++ ['/', '/'], 0⟩ ≠
      buildRelayWsUrl ⟨str "abc", str "tok", str "wss://relay.example", 0⟩ :=
  buildRelayWsUrl_slash_invariance
    ⟨str "abc", str "tok", str "wss://relay.example", 0⟩ (by decide)

theorem stepRelay_suffix (st : RelayState) (op : RelayOp)
    (h : ∀ p ∈ st.consumers, ∃ pre, st.sent = pre ++ p.2) :
    ∀ p ∈ (stepRelay st op).consumers, ∃ pre, (stepRelay st op).sent = pre ++ p.2 := by
  intro p hp
  cases op with
  | join c =>
    simp only [stepRelay, List.mem_append, List.mem_singleton] at hp
    rcases hp with hp | hp
    · exact h p hp
    · subst hp
      exact ⟨st.sent, by simp [stepRelay]⟩
  | leave c =>
    simp only [stepRelay, List.mem_filter] at hp
    exact h p hp.1
  | send ev =>
    simp only [stepRelay, List.mem_map] at hp
    obtain ⟨q, hq, hpq⟩ := hp
    obtain ⟨pre, hpre⟩ := h q hq
    subst hpq
    exact ⟨pre, by simp [stepRelay, hpre]⟩

theorem foldl_stepRelay_suffix (ops : List RelayOp) :
    ∀ st, (∀ p ∈ st.consumers, ∃ pre, st.sent = pre ++ p.2) →
      ∀ p ∈ (ops.foldl stepRelay st).consumers,
        ∃ pre, (ops.foldl stepRelay st).sent = pre ++ p.2 := by
  induction ops with
  | nil => intro st h; exact h
  | cons op rest ih =>
    intro st h
    exact ih (stepRelay st op) (stepRelay_suffix st op h)

/-- Claim C2: in every execution of the fan-out semantics, the delivery
list of every currently joined consumer is a suffix of the producer's sent
list — each consumer received the producer's events in exactly the order
they were sent, whatever the number of consumers. -/
theorem relay_fifo_order (ops : List RelayOp) (c : Nat)
    (d : List TranscriptEvent) (h : (c, d) ∈ (runRelay ops).consumers) :
    ∃ pre, (runRelay ops).sent = pre ++ d := by
  have hinit : ∀ p ∈ initRelay.consumers, ∃ pre, initRelay.sent = pre ++ p.2 := by
    intro p hp
    simp [initRelay] at hp
  exact foldl_stepRelay_suffix ops initRelay hinit (c, d) h

/-- Concrete instance of `relay_fifo_order`: a consumer joining after one
send receives exactly the two later events, a suffix of the three sent. -/
theorem relay_fifo_order_witness :
    ∃ pre,
      (runRelay [RelayOp.send ⟨true, str "a", 1⟩, RelayOp.join 7,
        RelayOp.send ⟨false, str "b", 2⟩, RelayOp.send ⟨true, str "c", 3⟩]).sent =
        pre ++ [⟨false, str "b", 2⟩, ⟨true, str "c", 3⟩] :=
  relay_fifo_order
    [RelayOp.send ⟨true, str "a", 1⟩, RelayOp.join 7,
      RelayOp.send ⟨false, str "b", 2⟩, RelayOp.send ⟨true, str "c", 3⟩] 7
    [⟨false, str "b", 2⟩, ⟨true, str "c", 3⟩] (by decide)

theorem isUnreservedChar_ne_special {c : Char} (h : isUnreservedChar c = true) :
    c ≠ '&' ∧ c ≠ '=' ∧ c ≠ '?' := by
  refine ⟨?_, ?_, ?_⟩ <;> intro he <;> rw [he] at h <;> exact absurd h (by decide)

theorem encodeURIComponent_of_unreserved (s : Str)
    (h : ∀ c ∈ s, isUnreservedChar c = true) : encodeURIComponent s = s := by
  induction s with
  | nil => rfl
  | cons c cs ih =>
    have hc : isUnreservedChar c = true := h c (List.mem_cons_self c cs)
    have hcs : ∀ x ∈ cs, isUnreservedChar x = true :=
      fun x hx => h x (List.mem_cons_of_mem c hx)
    simp [encodeURIComponent, encodeChar, hc] at ih ⊢
    exact ih hcs

theorem afterChar_append (sep : Char) (l1 l2 : Str)
    (h : ∀ c ∈ l1, c ≠ sep) : afterChar sep (l1 ++ sep :: l2) = some l2 := by
  induction l1 with
  | nil => simp [afterChar]
  | cons c cs ih =>
    have hc : c ≠ sep := h c (List.mem_cons_self c cs)
    simp only [List.cons_append, afterChar, if_neg hc]
    exact ih (fun x hx => h x (List.mem_cons_of_mem c hx))

theorem splitOnChar_ne_nil (sep : Char) (l : Str) : splitOnChar sep l ≠ [] := by
  cases l with
  | nil => simp [splitOnChar]
  | cons c rest =>
    by_cases hc : c = sep
    · simp [splitOnChar, hc]
    · simp only [splitOnChar, if_neg hc]
      cases splitOnChar sep rest <;> simp

theorem splitOnChar_append (sep : Char) (l1 l2 : Str)
    (h : ∀ c ∈ l1, c ≠ sep) :
    splitOnChar sep (l1 ++ sep :: l2) = l1 :: splitOnChar sep l2 := by
  induction l1 with
  | nil => simp [splitOnChar]
  | cons c cs ih =>
    have hc : c ≠ sep := h c (List.mem_cons_self c cs)
    have ih2 := ih (fun x hx => h x (List.mem_cons_of_mem c hx))
    simp only [List.cons_append, splitOnChar, if_neg hc, List.append_eq, ih2]

theorem splitKV_append (k v : Str) (h : ∀ c ∈ k, c ≠ '=') :
    splitKV (k ++ '=' :: v) = (k, v) := by
  induction k with
  | nil => simp [splitKV]
  | cons c cs ih =>
    have hc : c ≠ '=' := h c (List.mem_cons_self c cs)
    have ih2 := ih (fun x hx => h x (List.mem_cons_of_mem c hx))
    simp only [List.cons_append, splitKV, if_neg hc, List.append_eq, ih2]

/-- Claim C7: for a session whose id and token consist of URL-safe
(unreserved) characters — as Base64URL session ids and JWTs do — the
pairing URL built by `createSession` carries both under the `s` and `t`
query parameters, and standard query parsing recovers exactly the
session id and the credential. -/
theorem pairing_url_encodes_session (info : SessionInfo) (language model : Str)
    (hs : ∀ c ∈ info.sessionId, isUnreservedChar c = true)
    (ht : ∀ c ∈ info.token, isUnreservedChar c = true) :
    getParam (pairingUrl info language model) (str "s") = some info.sessionId ∧
    getParam (pairingUrl info language model) (str "t") = some info.token := by
  have hencs := encodeURIComponent_of_unreserved _ hs
  have henct := encodeURIComponent_of_unreserved _ ht
  have e1 : str "https://voice.paymore.app?s=" =
      str "https://voice.paymore.app" ++ '?' :: str "s=" := by decide
  have e2 : str "&t=" = '&' :: str "t=" := by decide
  have e3 : str "&lang=" = '&' :: str "lang=" := by decide
  have e4 : str "&model=" = '&' :: str "model=" := by decide
  have hurl : pairingUrl info language model =
      str "https://voice.paymore.app" ++ '?' ::
        ((str "s=" ++ info.sessionId) ++ '&' ::
          ((str "t=" ++ info.token) ++ '&' ::
            ((str "lang=" ++ encodeURIComponent language) ++ '&' ::
              (str "model=" ++ encodeURIComponent model)))) := by
    unfold pairingUrl
    rw [hencs, henct, e1, e2, e3, e4]
    simp [List.append_assoc]
  have hq1 : ∀ c ∈ str "https://voice.paymore.app", c ≠ '?' := by decide
  have hfree_s : ∀ c ∈ str "s=" ++ info.sessionId, c ≠ '&' := by
    intro c hcm
    rcases List.mem_append.mp hcm with hcm | hcm
    · simp [str] at hcm
      rcases hcm with rfl | rfl <;> decide
    · exact (isUnreservedChar_ne_special (hs c hcm)).1
  have hfree_t : ∀ c ∈ str "t=" ++ info.token, c ≠ '&' := by
    intro c hcm
    rcases List.mem_append.mp hcm with hcm | hcm
    · simp [str] at hcm
      rcases hcm with rfl | rfl <;> decide
    · exact (isUnreservedChar_ne_special (ht c hcm)).1
  have hafter : afterChar '?' (pairingUrl info language model) =
      some ((str "s=" ++ info.sessionId) ++ '&' ::
        ((str "t=" ++ info.token) ++ '&' ::
          ((str "lang=" ++ encodeURIComponent language) ++ '&' ::
            (str "model=" ++ encodeURIComponent model)))) := by
    rw [hurl]
    exact afterChar_append _ _ _ hq1
  have hsplit1 : splitOnChar '&'
      ((str "s=" ++ info.sessionId) ++ '&' ::
        ((str "t=" ++ info.token) ++ '&' ::
          ((str "lang=" ++ encodeURIComponent language) ++ '&' ::
            (str "model=" ++ encodeURIComponent model)))) =
      (str "s=" ++ info.sessionId) :: splitOnChar '&'
        ((str "t=" ++ info.token) ++ '&' ::
          ((str "lang=" ++ encodeURIComponent language) ++ '&' ::
            (str "model=" ++ encodeURIComponent model))) :=
    splitOnChar_append _ _ _ hfree_s
  have hsplit2 : splitOnChar '&'
      ((str "t=" ++ info.token) ++ '&' ::
        ((str "lang=" ++ encodeURIComponent language) ++ '&' ::
          (str "model=" ++ encodeURIComponent model))) =
      (str "t=" ++ info.token) :: splitOnChar '&'
        ((str "lang=" ++ encodeURIComponent language) ++ '&' ::
          (str "model=" ++ encodeURIComponent model)) :=
    splitOnChar_append _ _ _ hfree_t
  have es : str "s=" ++ info.sessionId = ['s'] ++ '=' :: info.sessionId := rfl
  have et : str "t=" ++ info.token = ['t'] ++ '=' :: info.token := rfl
  have hkv_s : splitKV (str "s=" ++ info.sessionId) = (['s'], info.sessionId) := by
    rw [es]
    exact splitKV_append ['s'] _ (by decide)
  have hkv_t : splitKV (str "t=" ++ info.token) = (['t'], info.token) := by
    rw [et]
    exact splitKV_append ['t'] _ (by decide)
  constructor
  · unfold getParam
    rw [hafter]
    simp only [hsplit1, lookupKV, hkv_s]
    rw [if_pos (by decide : (['s'] : Str) = str "s")]
  · unfold getParam
    rw [hafter]
    simp only [hsplit1, hsplit2, lookupKV, hkv_s, hkv_t]
    rw [if_neg (by decide : ¬ (['s'] : Str) = str "t"),
      if_pos (by decide : (['t'] : Str) = str "t")]

/-- Concrete instance of `pairing_url_encodes_session` for a Base64URL-like
session id and a JWT-like token. -/
theorem pairing_url_encodes_session_witness :
    getParam (pairingUrl ⟨str "abc123", str "tok.value", str "https://relay.example", 0⟩
        (str "en-US") (str "gemini-2.5-pro")) (str "s") = some (str "abc123") ∧
    getParam (pairingUrl ⟨str "abc123", str "tok.value", str "https://relay.example", 0⟩
        (str "en-US") (str "gemini-2.5-pro")) (str "t") = some (str "tok.value") :=
  pairing_url_encodes_session
    ⟨str "abc123", str "tok.value", str "https://relay.example", 0⟩
    (str "en-US") (str "gemini-2.5-pro") (by decide) (by decide)
